import Mathlib

/-!
Shallow embedding of the `soap` Go package (a SOAP 1.1 HTTP client).

The core of the package is `Body.UnmarshalXML`, a single-pass state machine
over an XML token stream that decodes the single child element of a SOAP
body either into a `Fault` or into a caller-supplied content destination,
plus the response-handling tail of `Client.Call` which classifies
empty-body / 401 / decode-failure / fault / success outcomes.

XML tokenization and reflection-based (de)serialization of arbitrary Go
values are an external library from the package's point of view; they are
modelled here by an explicit token type, a subtree parser over token lists,
and a caller-supplied decode function for application content.
-/

namespace Soap

/-- Qualified XML name, mirroring `xml.Name` (namespace URL and local part). -/
structure XName where
  space : String
  localName : String
deriving DecidableEq

/-- XML pull tokens, mirroring `xml.Token` as consumed by `Body.UnmarshalXML`:
start/end element, character data, comments, processing instructions and
directives.  Attributes are not inspected by the package and are omitted. -/
inductive Token where
  | startElement (name : XName)
  | endElement (name : XName)
  | charData (s : String)
  | comment (s : String)
  | procInst (target : String) (inst : String)
  | directive (s : String)
deriving DecidableEq

/-- An XML element subtree (element with ordered children, or a text node),
the shape recovered by `xml.Decoder.DecodeElement` when it consumes the
full sub-tree of a start element. -/
inductive XTree where
  | elem (name : XName) (children : List XTree)
  | text (s : String)

mutual

/-- Boolean structural equality of subtrees. -/
def XTree.beq : XTree → XTree → Bool
  | .elem n1 k1, .elem n2 k2 => n1 == n2 && XTree.beqList k1 k2
  | .text s1, .text s2 => s1 == s2
  | _, _ => false

/-- Boolean structural equality of sibling lists. -/
def XTree.beqList : List XTree → List XTree → Bool
  | [], [] => true
  | t :: ts, u :: us => XTree.beq t u && XTree.beqList ts us
  | _, _ => false

end

mutual

theorem XTree.beq_iff : ∀ (t u : XTree), (XTree.beq t u = true) ↔ t = u
  | .elem n1 k1, .elem n2 k2 => by
    simp only [XTree.beq, Bool.and_eq_true, beq_iff_eq, XTree.beqList_iff k1 k2,
      XTree.elem.injEq]
  | .elem _ _, .text _ => by simp [XTree.beq]
  | .text _, .elem _ _ => by simp [XTree.beq]
  | .text s1, .text s2 => by simp [XTree.beq]

theorem XTree.beqList_iff : ∀ (ts us : List XTree), (XTree.beqList ts us = true) ↔ ts = us
  | [], [] => by simp [XTree.beqList]
  | [], _ :: _ => by simp [XTree.beqList]
  | _ :: _, [] => by simp [XTree.beqList]
  | t :: ts, u :: us => by
    simp only [XTree.beqList, Bool.and_eq_true, XTree.beq_iff t u, XTree.beqList_iff ts us,
      List.cons.injEq]

end

instance : DecidableEq XTree := fun t u => decidable_of_iff _ (XTree.beq_iff t u)

mutual

/-- Serialization of a subtree into the token stream (the encoding side of
the external XML primitive collaborator). -/
def tokensOf : XTree → List Token
  | .elem n kids => Token.startElement n :: tokensOfList kids ++ [Token.endElement n]
  | .text s => [Token.charData s]

/-- Serialization of a list of sibling subtrees into the token stream. -/
def tokensOfList : List XTree → List Token
  | [] => []
  | t :: ts => tokensOf t ++ tokensOfList ts

end

instance {ε α : Type} [DecidableEq ε] [DecidableEq α] : DecidableEq (Except ε α) := fun a b =>
  match a, b with
  | .ok x, .ok y => decidable_of_iff (x = y) (by simp)
  | .error x, .error y => decidable_of_iff (x = y) (by simp)
  | .ok _, .error _ => isFalse (by simp)
  | .error _, .ok _ => isFalse (by simp)

/-- The fixed SOAP 1.1 envelope namespace string of `soap.go`. -/
def envelopeNS : String := "http://schemas.xmlsoap.org/soap/envelope/"

/-- Qualified name of the well-known SOAP Fault element. -/
def faultName : XName := ⟨envelopeNS, "Fault"⟩

/-- Errors surfaced by the XML layer and by `Body.UnmarshalXML`:
`unmarshalError` mirrors `xml.UnmarshalError` strings, `syntaxError` mirrors
syntax errors of the tokenizer, `eof` mirrors `io.EOF` from `d.Token()`. -/
inductive XmlError where
  | unmarshalError (msg : String)
  | syntaxError (msg : String)
  | eof
deriving DecidableEq

/-- Predicate used by the Go character class of `strings.TrimSpace`
(`unicode.IsSpace`) on the Latin-1 range. -/
def isSpaceChar (c : Char) : Bool :=
  c = ' ' || c = '\t' || c = '\n' || c = Char.ofNat 11 || c = Char.ofNat 12 ||
    c = '\r' || c = Char.ofNat 0x85 || c = Char.ofNat 0xA0

/-- Drops leading and trailing space characters from a character list. -/
def trimChars (cs : List Char) : List Char :=
  ((cs.dropWhile isSpaceChar).reverse.dropWhile isSpaceChar).reverse

/-- Model of `strings.TrimSpace`, as applied by `trimSpace.UnmarshalXML`. -/
def trimSpaceStr (s : String) : String :=
  ⟨trimChars s.data⟩

/-- Character content of an element's child list, as recovered when the Go
XML decoder unmarshals an element into a plain string: the concatenation of
the direct character-data children (nested elements are skipped). -/
def textContent (kids : List XTree) : String :=
  kids.foldl (fun acc n => match n with | .text s => acc ++ s | .elem _ _ => acc) ""

/-- Model of the SOAP `Fault` struct.  `code`/`text`/`actor`/`detail` carry
the `trimSpace`-decoded leaf strings; `httpStatus` has xml tag `-` and is
never read from the payload. -/
structure Fault where
  code : String
  text : String
  actor : String
  detail : String
  httpStatus : Int
deriving DecidableEq

/-- The zero `Fault` value, as allocated by `&Fault{}` in the fault branch of
`Body.UnmarshalXML`. -/
def Fault.zero : Fault := ⟨"", "", "", "", 0⟩

/-- One step of decoding a `Fault` from its children: a child element whose
local name matches one of the field tags `faultcode`, `faultstring`,
`faultactor`, `detail` overwrites that field with its trimmed character
content (the field tags carry no namespace, so any namespace matches); every
other child is ignored.  Later occurrences overwrite earlier ones, as each
matching element runs `trimSpace.UnmarshalXML` again. -/
def applyFaultChild (f : Fault) (n : XTree) : Fault :=
  match n with
  | .elem nm ks =>
    if nm.localName = "faultcode" then { f with code := trimSpaceStr (textContent ks) }
    else if nm.localName = "faultstring" then { f with text := trimSpaceStr (textContent ks) }
    else if nm.localName = "faultactor" then { f with actor := trimSpaceStr (textContent ks) }
    else if nm.localName = "detail" then { f with detail := trimSpaceStr (textContent ks) }
    else f
  | .text _ => f

/-- Decoding a `Fault` value from the children of the Fault element
(`d.DecodeElement(b.Fault, &se)` after `b.Fault = &Fault{}`). -/
def decodeFault (kids : List XTree) : Fault :=
  kids.foldl applyFaultChild Fault.zero

/-- Model of `(*Fault).Error`: the nil receiver yields the fixed sentinel;
otherwise the text, prefixed by the code when present, followed by the
parenthesized detail when present and the HTTP status when non-zero. -/
def faultErrorString : Option Fault → String
  | none => "soap: <nil>"
  | some f =>
    let e1 := f.text
    let e2 := if f.code ≠ "" then f.code ++ ": " ++ e1 else e1
    let e3 := if f.detail ≠ "" then e2 ++ " (" ++ f.detail ++ ")" else e2
    let e4 := if f.httpStatus ≠ 0 then e3 ++ " " ++ toString f.httpStatus else e3
    "soap: " ++ e4

/-- Subtree parser modelling `xml.Decoder.DecodeElement`'s consumption of
the full sub-tree of an already-read start element: collects the sibling
nodes of the current element (whose name is `name`) up to and including the
matching end element, returning them with the unread remainder of the
stream.  Character data becomes text nodes, comments, processing
instructions and directives are dropped, a mismatched end element is the
tokenizer's syntax error, and running out of tokens is `eof`.  `fuel` only
bounds the recursion; callers pass at least `ts.length + 1`, which the
length-decrease of every recursive call keeps sufficient. -/
def parseNodes : Nat → XName → List Token → Except XmlError (List XTree × List Token)
  | 0, _, _ => .error (.syntaxError "fuel exhausted")
  | fuel + 1, name, ts =>
    match ts with
    | [] => .error .eof
    | Token.endElement n :: rest =>
      if n = name then .ok ([], rest)
      else .error (.syntaxError "unexpected end element")
    | Token.startElement n :: rest =>
      match parseNodes fuel n rest with
      | .error e => .error e
      | .ok (kids, rest1) =>
        match parseNodes fuel name rest1 with
        | .error e => .error e
        | .ok (sibs, rest2) => .ok (XTree.elem n kids :: sibs, rest2)
    | Token.charData s :: rest =>
      match parseNodes fuel name rest with
      | .error e => .error e
      | .ok (sibs, rest1) => .ok (XTree.text s :: sibs, rest1)
    | _ :: rest => parseNodes fuel name rest

/-- Model of the `Body` struct: an optional decoded `Fault` and the
caller-owned content destination.  `content = none` models a nil `Content`
interface; `content = some c` models a non-nil destination whose pointed-to
value is `c`. -/
structure Body (α : Type) where
  fault : Option Fault
  content : Option α
deriving DecidableEq

/-- The error of the nil-content check at the top of `Body.UnmarshalXML`. -/
def nilContentError : XmlError :=
  .unmarshalError "content must be a pointer to a struct"

/-- The protocol error for a second top-level element inside the body. -/
def multipleElementsError : XmlError :=
  .unmarshalError "found multiple elements inside SOAP body; not wrapped-document/literal WS-I compliant"

/-- The token loop of `Body.UnmarshalXML`.  `dec` models the reflection
decode `d.DecodeElement(b.Content, &se)` on the pointed-to content value:
it receives the current value and the consumed sub-tree and returns the
updated value.  A start element while `consumed` is the protocol error; the
first start element either decodes a fresh `Fault` (envelope namespace,
local name `Fault`) and clears the content reference, or decodes into the
content destination; an end element ends the loop; every other token is
ignored.  The `content = none` case of the non-fault branch is unreachable
from `Body.unmarshalXML` (the nil check runs first and content is cleared
only together with `consumed := true`); Go's `DecodeElement` would reject
the nil destination there. -/
def bodyLoop (dec : α → XTree → Except XmlError α) :
    Nat → Body α → Bool → List Token → Except XmlError (Body α × List Token)
  | 0, _, _, _ => .error (.syntaxError "fuel exhausted")
  | fuel + 1, b, consumed, ts =>
    match ts with
    | [] => .error .eof
    | Token.startElement n :: rest =>
      if consumed then .error multipleElementsError
      else if n.space = envelopeNS ∧ n.localName = "Fault" then
        match parseNodes fuel n rest with
        | .error e => .error e
        | .ok (kids, rest1) => bodyLoop dec fuel ⟨some (decodeFault kids), none⟩ true rest1
      else
        match b.content with
        | none => .error (.unmarshalError "non-pointer passed to DecodeElement")
        | some c =>
          match parseNodes fuel n rest with
          | .error e => .error e
          | .ok (kids, rest1) =>
            match dec c (XTree.elem n kids) with
            | .error e => .error e
            | .ok c1 => bodyLoop dec fuel ⟨b.fault, some c1⟩ true rest1
    | Token.endElement _ :: rest => .ok (b, rest)
    | _ :: rest => bodyLoop dec fuel b consumed rest

/-- Model of `Body.UnmarshalXML`: fail on a nil content destination before
reading any token, otherwise run the loop over the body's child token
stream (the tokens `d.Token()` yields between the Body start element and
its end element, the latter included). -/
def Body.unmarshalXML (dec : α → XTree → Except XmlError α) (b : Body α)
    (ts : List Token) : Except XmlError (Body α × List Token) :=
  match b.content with
  | none => .error nilContentError
  | some _ => bodyLoop dec (ts.length + 1) b false ts

/-- Decode of a sub-tree into a destination of the matching type: the
decoded value is the sub-tree itself.  This is the canonical content
destination used to run the decoder on concrete documents. -/
def contentDec : XTree → XTree → Except XmlError XTree :=
  fun _ t => .ok t

/-- Error outcomes of `Client.Call`'s response phase: the fixed `errBody`
and `errUnauthorized` sentinels, the decode-failure error carrying the HTTP
status line and code, and a returned `*Fault`. -/
inductive CallError where
  | errBody
  | errUnauthorized
  | statusError (statusText : String) (statusCode : Int)
  | fault (f : Fault)
deriving DecidableEq

/-- Model of the response-handling tail of `Client.Call` (after the HTTP
exchange and `ioutil.ReadAll` succeeded): an empty body is `errBody`
regardless of status; then status 401 is `errUnauthorized`; otherwise the
bytes are parsed (`tokenize` models the external `xml.Unmarshal` front end
producing the Body element's child token stream) and run through
`Body.unmarshalXML` with a fresh envelope whose content destination is
`response`; parse or decode failure yields the status error; a decoded
fault is returned with `httpStatus` stamped from the transport status; and
otherwise the call succeeds with the final content destination. -/
def callHandleResponse (tokenize : String → Except XmlError (List Token))
    (dec : α → XTree → Except XmlError α) (response : α)
    (statusText : String) (statusCode : Int) (rawBody : String) :
    Except CallError (Option α) :=
  if rawBody.length = 0 then .error .errBody
  else if statusCode = 401 then .error .errUnauthorized
  else
    match tokenize rawBody with
    | .error _ => .error (.statusError statusText statusCode)
    | .ok ts =>
      match Body.unmarshalXML dec ⟨none, some response⟩ ts with
      | .error _ => .error (.statusError statusText statusCode)
      | .ok (b, _) =>
        match b.fault with
        | some f => .error (.fault { f with httpStatus := statusCode })
        | none => .ok b.content

theorem tokensOfList_cons_append (t : XTree) (ns : List XTree) (zs : List Token) :
    tokensOfList (t :: ns) ++ zs = tokensOf t ++ (tokensOfList ns ++ zs) := by
  simp [tokensOfList, List.append_assoc]

/-- Parsing back the serialized form of a sibling list stops exactly at the
closing end element and returns the original list: `parseNodes` is a left
inverse of `tokensOfList`, for any sufficient fuel. -/
theorem parseNodes_tokensOfList :
    ∀ (k : Nat) (ns : List XTree) (name : XName) (rest : List Token) (fuel : Nat),
      (tokensOfList ns).length ≤ k →
      (tokensOfList ns).length + rest.length + 1 ≤ fuel →
      parseNodes fuel name (tokensOfList ns ++ Token.endElement name :: rest) = .ok (ns, rest) := by
  intro k
  induction k using Nat.strong_induction_on with
  | _ k ih =>
    intro ns name rest fuel hk hfuel
    obtain ⟨f, rfl⟩ : ∃ f, fuel = f + 1 := ⟨fuel - 1, by omega⟩
    match ns with
    | [] =>
      simp [tokensOfList, parseNodes]
    | XTree.text s :: ns' =>
      have hlen : (tokensOfList (XTree.text s :: ns')).length =
          (tokensOfList ns').length + 1 := by
        simp [tokensOfList, tokensOf]
      rw [tokensOfList_cons_append]
      simp only [tokensOf, List.cons_append, List.nil_append, parseNodes]
      rw [ih (tokensOfList ns').length (by omega) ns' name rest f (by omega) (by omega)]
    | XTree.elem n kids :: ns' =>
      have hlen : (tokensOfList (XTree.elem n kids :: ns')).length =
          (tokensOfList kids).length + (tokensOfList ns').length + 2 := by
        simp [tokensOfList, tokensOf]
        omega
      rw [tokensOfList_cons_append]
      simp only [tokensOf, List.cons_append, List.append_assoc, List.singleton_append,
        List.nil_append, parseNodes]
      rw [ih (tokensOfList kids).length (by omega) kids n
        (tokensOfList ns' ++ Token.endElement name :: rest) f (by omega)
        (by simp only [List.length_append, List.length_cons]; omega)]
      dsimp only
      rw [ih (tokensOfList ns').length (by omega) ns' name rest f (by omega) (by omega)]

/-- A token is a start or end element (the only tokens the body loop's
switch statement has cases for). -/
def Token.isElemTok : Token → Bool
  | .startElement _ => true
  | .endElement _ => true
  | _ => false

/-- Number of element nodes (top-level child elements) in a sibling list. -/
def countElems (ns : List XTree) : Nat :=
  ns.countP fun t => match t with | .elem _ _ => true | .text _ => false

theorem bodyLoop_skip {α : Type} (dec : α → XTree → Except XmlError α) (fuel : Nat)
    (b : Body α) (consumed : Bool) (tk : Token) (ts : List Token)
    (h : tk.isElemTok = false) :
    bodyLoop dec (fuel + 1) b consumed (tk :: ts) = bodyLoop dec fuel b consumed ts := by
  match tk with
  | .startElement n => simp [Token.isElemTok] at h
  | .endElement n => simp [Token.isElemTok] at h
  | .charData s => rfl
  | .comment s => rfl
  | .procInst t i => rfl
  | .directive s => rfl

/-- Running the loop over a prefix of ignored tokens followed by an end
element succeeds with the state untouched. -/
theorem bodyLoop_skipAll {α : Type} (dec : α → XTree → Except XmlError α) :
    ∀ (pre : List Token) (b : Body α) (consumed : Bool) (w : XName)
      (rest : List Token) (fuel : Nat),
      (∀ tk ∈ pre, tk.isElemTok = false) →
      pre.length + 1 ≤ fuel →
      bodyLoop dec fuel b consumed (pre ++ Token.endElement w :: rest) = .ok (b, rest) := by
  intro pre
  induction pre with
  | nil =>
    intro b consumed w rest fuel _ hfuel
    obtain ⟨f, rfl⟩ : ∃ f, fuel = f + 1 := ⟨fuel - 1, by omega⟩
    rfl
  | cons tk pre ih =>
    intro b consumed w rest fuel hpre hfuel
    obtain ⟨f, rfl⟩ : ∃ f, fuel = f + 1 := ⟨fuel - 1, by omega⟩
    rw [List.cons_append, bodyLoop_skip dec f b consumed tk _ (hpre tk (by simp))]
    exact ih b consumed w rest f (fun t ht => hpre t (by simp [ht])) (by simp at hfuel; omega)

/-- Once `consumed` is set, a further top-level child element makes the
loop fail with the multiple-elements protocol error. -/
theorem bodyLoop_consumed_multiple {α : Type} (dec : α → XTree → Except XmlError α) :
    ∀ (ns : List XTree) (b : Body α) (w : XName) (rest : List Token) (fuel : Nat),
      0 < countElems ns →
      (tokensOfList ns).length + 1 ≤ fuel →
      bodyLoop dec fuel b true (tokensOfList ns ++ Token.endElement w :: rest) =
        .error multipleElementsError := by
  intro ns
  induction ns with
  | nil => intro b w rest fuel hc _; simp [countElems] at hc
  | cons t ns ih =>
    intro b w rest fuel hc hfuel
    obtain ⟨f, rfl⟩ : ∃ f, fuel = f + 1 := ⟨fuel - 1, by omega⟩
    match t with
    | XTree.elem n kids =>
      rw [tokensOfList_cons_append]
      simp [tokensOf, bodyLoop]
    | XTree.text s =>
      rw [tokensOfList_cons_append]
      simp only [tokensOf, List.singleton_append, bodyLoop]
      have hlen : (tokensOfList (XTree.text s :: ns)).length =
          (tokensOfList ns).length + 1 := by simp [tokensOfList, tokensOf]
      exact ih b w rest f (by simpa [countElems] using hc) (by omega)

theorem applyFaultChild_httpStatus (f : Fault) (n : XTree) :
    (applyFaultChild f n).httpStatus = f.httpStatus := by
  match n with
  | .text s => rfl
  | .elem nm ks =>
    simp only [applyFaultChild]
    split <;> try rfl
    split <;> try rfl
    split <;> try rfl
    split <;> rfl

/-- The decoded fault never reads `httpStatus` from the payload: it keeps
the zero value of `&Fault\x7b\x7d`. -/
theorem decodeFault_httpStatus (kids : List XTree) : (decodeFault kids).httpStatus = 0 := by
  suffices h : ∀ (l : List XTree) (acc : Fault),
      (l.foldl applyFaultChild acc).httpStatus = acc.httpStatus by
    exact h kids Fault.zero
  intro l
  induction l with
  | nil => intro acc; rfl
  | cons n l ih =>
    intro acc
    rw [List.foldl_cons, ih, applyFaultChild_httpStatus]

/-- From the scanning state with a live content destination, a body whose
serialized children contain at least two top-level elements drives the loop
into the multiple-elements protocol error, whether or not the first element
is a Fault. -/
theorem bodyLoop_two_elems :
    ∀ (ns : List XTree) (fb : Option Fault) (v : XTree) (w : XName)
      (rest : List Token) (fuel : Nat),
      2 ≤ countElems ns →
      (tokensOfList ns).length + rest.length + 2 ≤ fuel →
      bodyLoop contentDec fuel ⟨fb, some v⟩ false
          (tokensOfList ns ++ Token.endElement w :: rest) =
        .error multipleElementsError := by
  intro ns
  induction ns with
  | nil => intro fb v w rest fuel hc _; simp [countElems] at hc
  | cons t ns ih =>
    intro fb v w rest fuel hc hfuel
    obtain ⟨f, rfl⟩ : ∃ f, fuel = f + 1 := ⟨fuel - 1, by omega⟩
    match t with
    | XTree.text s =>
      have hlen : (tokensOfList (XTree.text s :: ns)).length =
          (tokensOfList ns).length + 1 := by simp [tokensOfList, tokensOf]
      rw [tokensOfList_cons_append]
      simp only [tokensOf, List.singleton_append, bodyLoop]
      exact ih fb v w rest f (by simpa [countElems] using hc) (by omega)
    | XTree.elem n kids =>
      have hlen : (tokensOfList (XTree.elem n kids :: ns)).length =
          (tokensOfList kids).length + (tokensOfList ns).length + 2 := by
        simp [tokensOfList, tokensOf]
        omega
      have hcount : 1 ≤ countElems ns := by
        have hcc : countElems (XTree.elem n kids :: ns) = countElems ns + 1 := by
          simp [countElems, List.countP_cons]
        omega
      have hparse : parseNodes f n
          (tokensOfList kids ++ Token.endElement n ::
            (tokensOfList ns ++ Token.endElement w :: rest)) =
          .ok (kids, tokensOfList ns ++ Token.endElement w :: rest) :=
        parseNodes_tokensOfList (tokensOfList kids).length kids n _ f (le_refl _)
          (by simp only [List.length_append, List.length_cons]; omega)
      rw [tokensOfList_cons_append]
      simp only [tokensOf, List.cons_append, List.append_assoc, List.singleton_append,
        List.nil_append, bodyLoop, Bool.false_eq_true, if_false]
      by_cases hf : n.space = envelopeNS ∧ n.localName = "Fault"
      · rw [if_pos hf, hparse]
        dsimp only
        exact bodyLoop_consumed_multiple contentDec ns _ w rest f hcount (by omega)
      · rw [if_neg hf, hparse]
        dsimp only [contentDec]
        exact bodyLoop_consumed_multiple contentDec ns _ w rest f hcount (by omega)

/-- The subtree parser never produces the nil-content configuration error. -/
theorem parseNodes_ne_nilContent :
    ∀ (fuel : Nat) (name : XName) (ts : List Token),
      parseNodes fuel name ts ≠ .error nilContentError := by
  intro fuel
  induction fuel with
  | zero => intro name ts; simp [parseNodes, nilContentError]
  | succ f ih =>
    intro name ts
    match ts with
    | [] => simp [parseNodes, nilContentError]
    | Token.endElement n :: rest =>
      rw [parseNodes]
      by_cases he : n = name
      · rw [if_pos he]; simp
      · rw [if_neg he]; simp [nilContentError]
    | Token.startElement n :: rest =>
      rw [parseNodes]
      match hp : parseNodes f n rest with
      | .error e =>
        dsimp only
        intro h
        simp only [Except.error.injEq] at h
        rw [h] at hp
        exact ih n rest hp
      | .ok (kids, rest1) =>
        dsimp only
        match hq : parseNodes f name rest1 with
        | .error e =>
          dsimp only
          intro h
          simp only [Except.error.injEq] at h
          rw [h] at hq
          exact ih name rest1 hq
        | .ok (sibs, rest2) => simp
    | Token.charData s :: rest =>
      rw [parseNodes]
      match hp : parseNodes f name rest with
      | .error e =>
        dsimp only
        intro h
        simp only [Except.error.injEq] at h
        rw [h] at hp
        exact ih name rest hp
      | .ok (sibs, rest1) => simp
    | Token.comment s :: rest => exact ih name rest
    | Token.procInst t i :: rest => exact ih name rest
    | Token.directive s :: rest => exact ih name rest

/-- The loop never produces the nil-content configuration error, provided
the content decode does not produce it either: that error belongs to the
nil check before the loop alone. -/
theorem bodyLoop_ne_nilContent {α : Type} (dec : α → XTree → Except XmlError α)
    (hdec : ∀ c t, dec c t ≠ .error nilContentError) :
    ∀ (fuel : Nat) (b : Body α) (consumed : Bool) (ts : List Token),
      bodyLoop dec fuel b consumed ts ≠ .error nilContentError := by
  intro fuel
  induction fuel with
  | zero => intro b consumed ts; simp [bodyLoop, nilContentError]
  | succ f ih =>
    intro b consumed ts
    match ts with
    | [] => simp [bodyLoop, nilContentError]
    | Token.startElement n :: rest =>
      rw [bodyLoop]
      by_cases hc : consumed = true
      · rw [hc, if_pos rfl]
        simp [multipleElementsError, nilContentError]
      · rw [eq_false_of_ne_true hc]
        simp only [Bool.false_eq_true, if_false]
        by_cases hf : n.space = envelopeNS ∧ n.localName = "Fault"
        · rw [if_pos hf]
          match hp : parseNodes f n rest with
          | .error e =>
            dsimp only
            intro h
            simp only [Except.error.injEq] at h
            rw [h] at hp
            exact parseNodes_ne_nilContent f n rest hp
          | .ok (kids, rest1) => exact ih _ true rest1
        · rw [if_neg hf]
          match b.content with
          | none => simp [nilContentError]
          | some c =>
            dsimp only
            match hp : parseNodes f n rest with
            | .error e =>
              dsimp only
              intro h
              simp only [Except.error.injEq] at h
              rw [h] at hp
              exact parseNodes_ne_nilContent f n rest hp
            | .ok (kids, rest1) =>
              dsimp only
              match hd : dec c (XTree.elem n kids) with
              | .error e =>
                dsimp only
                intro h
                simp only [Except.error.injEq] at h
                rw [h] at hd
                exact hdec c (XTree.elem n kids) hd
              | .ok c1 => exact ih _ true rest1
    | Token.endElement n :: rest => rw [bodyLoop]; simp
    | Token.charData s :: rest => exact ih b consumed rest
    | Token.comment s :: rest => exact ih b consumed rest
    | Token.procInst t i :: rest => exact ih b consumed rest
    | Token.directive s :: rest => exact ih b consumed rest

/-- Invariant of a decoded body: fault unset with a live content reference,
or a fault with zero `httpStatus` and the content reference cleared — never
both populated. -/
def BodyInv {α : Type} (b : Body α) : Prop :=
  (b.fault = none ∧ b.content ≠ none) ∨
    (∃ f, b.fault = some f ∧ f.httpStatus = 0 ∧ b.content = none)

theorem bodyLoop_inv {α : Type} (dec : α → XTree → Except XmlError α) :
    ∀ (fuel : Nat) (b : Body α) (consumed : Bool) (ts : List Token)
      (b1 : Body α) (rest : List Token),
      BodyInv b → bodyLoop dec fuel b consumed ts = .ok (b1, rest) → BodyInv b1 := by
  intro fuel
  induction fuel with
  | zero => intro b consumed ts b1 rest _ h; exact absurd h (by simp [bodyLoop])
  | succ f ih =>
    intro b consumed ts b1 rest hinv h
    match ts with
    | [] => exact absurd h (by simp [bodyLoop])
    | Token.startElement n :: rest0 =>
      rw [bodyLoop] at h
      by_cases hc : consumed = true
      · rw [hc, if_pos rfl] at h
        exact absurd h (by simp)
      · rw [eq_false_of_ne_true hc] at h
        simp only [Bool.false_eq_true, if_false] at h
        by_cases hf : n.space = envelopeNS ∧ n.localName = "Fault"
        · rw [if_pos hf] at h
          match hp : parseNodes f n rest0 with
          | .error e => rw [hp] at h; exact absurd h (by simp)
          | .ok (kids, rest1) =>
            rw [hp] at h
            exact ih _ true rest1 b1 rest
              (Or.inr ⟨decodeFault kids, rfl, decodeFault_httpStatus kids, rfl⟩) h
        · rw [if_neg hf] at h
          match hbc : b.content with
          | none => rw [hbc] at h; exact absurd h (by simp)
          | some c =>
            rw [hbc] at h
            dsimp only at h
            match hp : parseNodes f n rest0 with
            | .error e => rw [hp] at h; exact absurd h (by simp)
            | .ok (kids, rest1) =>
              rw [hp] at h
              dsimp only at h
              match hd : dec c (XTree.elem n kids) with
              | .error e => rw [hd] at h; exact absurd h (by simp)
              | .ok c1 =>
                rw [hd] at h
                have hfn : b.fault = none := by
                  rcases hinv with ⟨h1, _⟩ | ⟨g, _, _, h3⟩
                  · exact h1
                  · rw [hbc] at h3; exact absurd h3 (by simp)
                refine ih _ true rest1 b1 rest ?_ h
                rw [hfn]
                exact Or.inl ⟨rfl, by simp⟩
    | Token.endElement n :: rest0 =>
      rw [bodyLoop] at h
      simp only [Except.ok.injEq, Prod.mk.injEq] at h
      rw [← h.1]
      exact hinv
    | Token.charData s :: rest0 => exact ih b consumed rest0 b1 rest hinv h
    | Token.comment s :: rest0 => exact ih b consumed rest0 b1 rest hinv h
    | Token.procInst t i :: rest0 => exact ih b consumed rest0 b1 rest hinv h
    | Token.directive s :: rest0 => exact ih b consumed rest0 b1 rest hinv h

/-- Character content of the last child element with the given local name,
if any: the occurrence whose decode wins when the Go decoder unmarshals the
fault, as each matching child overwrites the field. -/
def lastFieldText (l : String) : List XTree → Option String
  | [] => none
  | XTree.elem nm ks :: t =>
    match lastFieldText l t with
    | some s => some s
    | none => if nm.localName = l then some (textContent ks) else none
  | XTree.text _ :: t => lastFieldText l t

theorem lastFieldText_cons (l : String) (n : XTree) (t : List XTree) :
    lastFieldText l (n :: t) =
      match lastFieldText l t with
      | some s => some s
      | none =>
        match n with
        | .elem nm ks => if nm.localName = l then some (textContent ks) else none
        | .text _ => none := by
  match n with
  | .elem nm ks => rfl
  | .text s =>
    rw [lastFieldText]
    match hlt : lastFieldText l t with
    | some s1 => rfl
    | none => rfl

theorem applyFaultChild_code_of_ne (acc : Fault) (nm : XName) (ks : List XTree)
    (h : ¬nm.localName = "faultcode") :
    (applyFaultChild acc (XTree.elem nm ks)).code = acc.code := by
  simp only [applyFaultChild]
  split_ifs <;> simp_all

theorem applyFaultChild_text_of_ne (acc : Fault) (nm : XName) (ks : List XTree)
    (h : ¬nm.localName = "faultstring") :
    (applyFaultChild acc (XTree.elem nm ks)).text = acc.text := by
  simp only [applyFaultChild]
  split_ifs <;> simp_all

theorem applyFaultChild_actor_of_ne (acc : Fault) (nm : XName) (ks : List XTree)
    (h : ¬nm.localName = "faultactor") :
    (applyFaultChild acc (XTree.elem nm ks)).actor = acc.actor := by
  simp only [applyFaultChild]
  split_ifs <;> simp_all

theorem applyFaultChild_detail_of_ne (acc : Fault) (nm : XName) (ks : List XTree)
    (h : ¬nm.localName = "detail") :
    (applyFaultChild acc (XTree.elem nm ks)).detail = acc.detail := by
  simp only [applyFaultChild]
  split_ifs <;> simp_all

theorem foldl_applyFaultChild_code :
    ∀ (kids : List XTree) (acc : Fault),
      (kids.foldl applyFaultChild acc).code =
        match lastFieldText "faultcode" kids with
        | some s => trimSpaceStr s
        | none => acc.code := by
  intro kids
  induction kids with
  | nil => intro acc; rfl
  | cons n t ih =>
    intro acc
    rw [List.foldl_cons, ih, lastFieldText_cons]
    match hlt : lastFieldText "faultcode" t with
    | some s => rfl
    | none =>
      dsimp only
      match n with
      | XTree.text s => rfl
      | XTree.elem nm ks =>
        dsimp only
        by_cases h : nm.localName = "faultcode"
        · rw [if_pos h]
          simp only [applyFaultChild, if_pos h]
        · rw [if_neg h]
          exact applyFaultChild_code_of_ne acc nm ks h

theorem foldl_applyFaultChild_text :
    ∀ (kids : List XTree) (acc : Fault),
      (kids.foldl applyFaultChild acc).text =
        match lastFieldText "faultstring" kids with
        | some s => trimSpaceStr s
        | none => acc.text := by
  intro kids
  induction kids with
  | nil => intro acc; rfl
  | cons n t ih =>
    intro acc
    rw [List.foldl_cons, ih, lastFieldText_cons]
    match hlt : lastFieldText "faultstring" t with
    | some s => rfl
    | none =>
      dsimp only
      match n with
      | XTree.text s => rfl
      | XTree.elem nm ks =>
        dsimp only
        by_cases h : nm.localName = "faultstring"
        · rw [if_pos h]
          have hne : ¬nm.localName = "faultcode" := by rw [h]; decide
          simp only [applyFaultChild, if_neg hne, if_pos h]
        · rw [if_neg h]
          exact applyFaultChild_text_of_ne acc nm ks h

theorem foldl_applyFaultChild_actor :
    ∀ (kids : List XTree) (acc : Fault),
      (kids.foldl applyFaultChild acc).actor =
        match lastFieldText "faultactor" kids with
        | some s => trimSpaceStr s
        | none => acc.actor := by
  intro kids
  induction kids with
  | nil => intro acc; rfl
  | cons n t ih =>
    intro acc
    rw [List.foldl_cons, ih, lastFieldText_cons]
    match hlt : lastFieldText "faultactor" t with
    | some s => rfl
    | none =>
      dsimp only
      match n with
      | XTree.text s => rfl
      | XTree.elem nm ks =>
        dsimp only
        by_cases h : nm.localName = "faultactor"
        · rw [if_pos h]
          have hne1 : ¬nm.localName = "faultcode" := by rw [h]; decide
          have hne2 : ¬nm.localName = "faultstring" := by rw [h]; decide
          simp only [applyFaultChild, if_neg hne1, if_neg hne2, if_pos h]
        · rw [if_neg h]
          exact applyFaultChild_actor_of_ne acc nm ks h

theorem foldl_applyFaultChild_detail :
    ∀ (kids : List XTree) (acc : Fault),
      (kids.foldl applyFaultChild acc).detail =
        match lastFieldText "detail" kids with
        | some s => trimSpaceStr s
        | none => acc.detail := by
  intro kids
  induction kids with
  | nil => intro acc; rfl
  | cons n t ih =>
    intro acc
    rw [List.foldl_cons, ih, lastFieldText_cons]
    match hlt : lastFieldText "detail" t with
    | some s => rfl
    | none =>
      dsimp only
      match n with
      | XTree.text s => rfl
      | XTree.elem nm ks =>
        dsimp only
        by_cases h : nm.localName = "detail"
        · rw [if_pos h]
          have hne1 : ¬nm.localName = "faultcode" := by rw [h]; decide
          have hne2 : ¬nm.localName = "faultstring" := by rw [h]; decide
          have hne3 : ¬nm.localName = "faultactor" := by rw [h]; decide
          simp only [applyFaultChild, if_neg hne1, if_neg hne2, if_neg hne3, if_pos h]
        · rw [if_neg h]
          exact applyFaultChild_detail_of_ne acc nm ks h

theorem string_eq_empty_of_length_eq_zero {s : String} (h : s.length = 0) : s = "" := by
  match s with
  | ⟨cs⟩ =>
    have hcs : cs = [] := List.length_eq_zero.mp h
    rw [hcs]

theorem bodyLoop_end {α : Type} (dec : α → XTree → Except XmlError α) (fuel : Nat)
    (b : Body α) (consumed : Bool) (w : XName) (rest : List Token) (hf : 1 ≤ fuel) :
    bodyLoop dec fuel b consumed (Token.endElement w :: rest) = .ok (b, rest) := by
  obtain ⟨f, rfl⟩ : ∃ f, fuel = f + 1 := ⟨fuel - 1, by omega⟩
  rfl

/-- A single-element body whose child is the Fault element: the loop
decodes the fault from the sub-tree, clears the content reference and
stops at the next end element. -/
theorem bodyLoop_single_fault {α : Type} (dec : α → XTree → Except XmlError α)
    (fb : Option Fault) (v : α) (kids : List XTree) (w : XName) (rest : List Token)
    (fuel : Nat) (hfuel : (tokensOfList kids).length + rest.length + 3 ≤ fuel) :
    bodyLoop dec fuel ⟨fb, some v⟩ false
        (Token.startElement faultName ::
          (tokensOfList kids ++ Token.endElement faultName :: Token.endElement w :: rest)) =
      .ok (⟨some (decodeFault kids), none⟩, rest) := by
  obtain ⟨f, rfl⟩ : ∃ f, fuel = f + 1 := ⟨fuel - 1, by omega⟩
  rw [bodyLoop]
  simp only [Bool.false_eq_true, if_false]
  rw [if_pos ⟨rfl, rfl⟩]
  rw [parseNodes_tokensOfList (tokensOfList kids).length kids faultName
    (Token.endElement w :: rest) f (le_refl _) (by simp only [List.length_cons]; omega)]
  dsimp only
  exact bodyLoop_end dec f _ true w rest (by omega)

/-- A single-element body whose child is not the Fault element: the loop
decodes the sub-tree into the content destination, leaves the fault unset
and stops at the next end element. -/
theorem bodyLoop_single_content {α : Type} (dec : α → XTree → Except XmlError α)
    (fb : Option Fault) (v c1 : α) (n : XName) (kids : List XTree) (w : XName)
    (rest : List Token) (fuel : Nat)
    (hn : ¬(n.space = envelopeNS ∧ n.localName = "Fault"))
    (hdec : dec v (XTree.elem n kids) = .ok c1)
    (hfuel : (tokensOfList kids).length + rest.length + 3 ≤ fuel) :
    bodyLoop dec fuel ⟨fb, some v⟩ false
        (Token.startElement n ::
          (tokensOfList kids ++ Token.endElement n :: Token.endElement w :: rest)) =
      .ok (⟨fb, some c1⟩, rest) := by
  obtain ⟨f, rfl⟩ : ∃ f, fuel = f + 1 := ⟨fuel - 1, by omega⟩
  rw [bodyLoop]
  simp only [Bool.false_eq_true, if_false]
  rw [if_neg hn]
  rw [parseNodes_tokensOfList (tokensOfList kids).length kids n
    (Token.endElement w :: rest) f (le_refl _) (by simp only [List.length_cons]; omega)]
  dsimp only
  rw [hdec]
  dsimp only
  exact bodyLoop_end dec f _ true w rest (by omega)

/-- C1: For every XML body whose element stream contains two or more
top-level child elements, decoding the Body fails with the protocol error
`found multiple elements inside SOAP body; not wrapped-document/literal
WS-I compliant`, regardless of what the two elements contain and of
whether the first element was a Fault or application content. -/
theorem claim_C1 (ns : List XTree) (fb : Option Fault) (v : XTree) (w : XName)
    (h : 2 ≤ countElems ns) :
    Body.unmarshalXML contentDec ⟨fb, some v⟩ (tokensOfList ns ++ [Token.endElement w]) =
      .error multipleElementsError :=
  bodyLoop_two_elems ns fb v w [] ((tokensOfList ns ++ [Token.endElement w]).length + 1) h
    (by simp only [List.length_append, List.length_cons, List.length_nil]; omega)

theorem claim_C1_witness :
    2 ≤ countElems [XTree.elem faultName [], XTree.elem ⟨"test:call", "Response"⟩ []] ∧
    Body.unmarshalXML contentDec ⟨none, some (XTree.text "")⟩
        (tokensOfList [XTree.elem faultName [], XTree.elem ⟨"test:call", "Response"⟩ []] ++
          [Token.endElement ⟨envelopeNS, "Body"⟩]) =
      .error multipleElementsError :=
  ⟨by decide,
    claim_C1 [XTree.elem faultName [], XTree.elem ⟨"test:call", "Response"⟩ []] none
      (XTree.text "") ⟨envelopeNS, "Body"⟩ (by decide)⟩

/-- C2: For every HTTP response, the checks are applied in this order: a
zero-length body fails with the fixed empty-body error regardless of the
status code (even 401); otherwise a 401 status fails with the fixed
unauthorized error for every body content, without the XML parse ever being
consulted (the outcome is independent of `tokenize` and `dec`). -/
theorem claim_C2 {α : Type} (tokenize : String → Except XmlError (List Token))
    (dec : α → XTree → Except XmlError α) (response : α)
    (statusText : String) (statusCode : Int) (rawBody : String) :
    (rawBody = "" →
      callHandleResponse tokenize dec response statusText statusCode rawBody =
        .error .errBody) ∧
    (rawBody ≠ "" → statusCode = 401 →
      callHandleResponse tokenize dec response statusText statusCode rawBody =
        .error .errUnauthorized) := by
  constructor
  · intro h
    subst h
    rfl
  · intro hne h401
    have hlen : ¬rawBody.length = 0 := fun hl => hne (string_eq_empty_of_length_eq_zero hl)
    rw [callHandleResponse, if_neg hlen, h401, if_pos rfl]

theorem claim_C2_witness :
    callHandleResponse (fun _ => .ok []) contentDec (XTree.text "")
        "401 Unauthorized" 401 "" = .error .errBody ∧
    callHandleResponse (fun _ => .ok []) contentDec (XTree.text "")
        "401 Unauthorized" 401 "this is not xml" = .error .errUnauthorized :=
  ⟨(claim_C2 (fun _ => .ok []) contentDec (XTree.text "") "401 Unauthorized" 401 "").1 rfl,
    (claim_C2 (fun _ => .ok []) contentDec (XTree.text "") "401 Unauthorized" 401
      "this is not xml").2 (by decide) rfl⟩

/-- C3: After every successful Body decode the body holds a Fault or live
content, never both (`BodyInv`); moreover on a single-child body whose
child is the well-known Fault element the decoder populates a freshly
decoded Fault and clears the content reference, and on any other single
child it decodes into the content destination and leaves the fault unset. -/
theorem claim_C3 {α : Type} (dec : α → XTree → Except XmlError α) (v : α) :
    (∀ (ts : List Token) (b1 : Body α) (rest : List Token),
      Body.unmarshalXML dec ⟨none, some v⟩ ts = .ok (b1, rest) → BodyInv b1) ∧
    (∀ (kids : List XTree) (w : XName),
      Body.unmarshalXML dec ⟨none, some v⟩
          (tokensOf (XTree.elem faultName kids) ++ [Token.endElement w]) =
        .ok (⟨some (decodeFault kids), none⟩, [])) ∧
    (∀ (n : XName) (kids : List XTree) (w : XName) (c1 : α),
      ¬(n.space = envelopeNS ∧ n.localName = "Fault") →
      dec v (XTree.elem n kids) = .ok c1 →
      Body.unmarshalXML dec ⟨none, some v⟩
          (tokensOf (XTree.elem n kids) ++ [Token.endElement w]) =
        .ok (⟨none, some c1⟩, [])) := by
  refine ⟨?_, ?_, ?_⟩
  · intro ts b1 rest h
    exact bodyLoop_inv dec (ts.length + 1) ⟨none, some v⟩ false ts b1 rest
      (Or.inl ⟨rfl, by simp⟩) h
  · intro kids w
    have hsh : tokensOf (XTree.elem faultName kids) ++ [Token.endElement w] =
        Token.startElement faultName ::
          (tokensOfList kids ++ Token.endElement faultName :: Token.endElement w :: []) := by
      simp [tokensOf]
    rw [hsh]
    exact bodyLoop_single_fault dec none v kids w [] _
      (by simp only [List.length_cons, List.length_append, List.length_nil]; omega)
  · intro n kids w c1 hn hdec
    have hsh : tokensOf (XTree.elem n kids) ++ [Token.endElement w] =
        Token.startElement n ::
          (tokensOfList kids ++ Token.endElement n :: Token.endElement w :: []) := by
      simp [tokensOf]
    rw [hsh]
    exact bodyLoop_single_content dec none v c1 n kids w [] _ hn hdec
      (by simp only [List.length_cons, List.length_append, List.length_nil]; omega)

theorem claim_C3_witness :
    Body.unmarshalXML contentDec ⟨none, some (XTree.text "")⟩
        (tokensOf (XTree.elem faultName [XTree.elem ⟨"", "faultstring"⟩ [XTree.text "boom"]]) ++
          [Token.endElement ⟨envelopeNS, "Body"⟩]) =
      .ok (⟨some (decodeFault [XTree.elem ⟨"", "faultstring"⟩ [XTree.text "boom"]]), none⟩, []) :=
  (claim_C3 contentDec (XTree.text "")).2.1
    [XTree.elem ⟨"", "faultstring"⟩ [XTree.text "boom"]] ⟨envelopeNS, "Body"⟩

/-- C4: Decoding a Body with a nil content destination fails with the
configuration error `content must be a pointer to a struct` before any
token is consumed (the same error for every stream); with a non-nil
destination that error is never produced, as long as the content decode
itself does not produce it. -/
theorem claim_C4 {α : Type} (dec : α → XTree → Except XmlError α) :
    (∀ (fb : Option Fault) (ts : List Token),
      Body.unmarshalXML dec ⟨fb, (none : Option α)⟩ ts = .error nilContentError) ∧
    (∀ (fb : Option Fault) (v : α) (ts : List Token),
      (∀ c t, dec c t ≠ .error nilContentError) →
      Body.unmarshalXML dec ⟨fb, some v⟩ ts ≠ .error nilContentError) := by
  constructor
  · intro fb ts
    rfl
  · intro fb v ts hdec
    exact bodyLoop_ne_nilContent dec hdec (ts.length + 1) ⟨fb, some v⟩ false ts

theorem claim_C4_witness :
    Body.unmarshalXML contentDec ⟨none, (none : Option XTree)⟩
        [Token.endElement ⟨envelopeNS, "Body"⟩] = .error nilContentError ∧
    Body.unmarshalXML contentDec ⟨none, some (XTree.text "")⟩
        [Token.endElement ⟨envelopeNS, "Body"⟩] ≠ .error nilContentError :=
  ⟨(claim_C4 contentDec).1 none [Token.endElement ⟨envelopeNS, "Body"⟩],
    (claim_C4 contentDec).2 none (XTree.text "") [Token.endElement ⟨envelopeNS, "Body"⟩]
      (fun c t h => by simp [contentDec] at h)⟩

/-- C5: Whenever the response envelope decodes successfully and yields a
Fault, Call stamps the Fault's `httpStatus` field with the HTTP status code
and returns that Fault value itself as the call's error outcome; the
decoded fault's own `httpStatus` is still zero (never populated from the
XML payload). -/
theorem claim_C5 {α : Type} (tokenize : String → Except XmlError (List Token))
    (dec : α → XTree → Except XmlError α) (response : α)
    (statusText : String) (statusCode : Int) (rawBody : String)
    (ts : List Token) (b1 : Body α) (rest : List Token) (f : Fault)
    (hbody : rawBody ≠ "") (hstatus : statusCode ≠ 401)
    (htok : tokenize rawBody = .ok ts)
    (hdec : Body.unmarshalXML dec ⟨none, some response⟩ ts = .ok (b1, rest))
    (hfault : b1.fault = some f) :
    callHandleResponse tokenize dec response statusText statusCode rawBody =
      .error (.fault { f with httpStatus := statusCode }) ∧ f.httpStatus = 0 := by
  constructor
  · have hlen : ¬rawBody.length = 0 := fun hl => hbody (string_eq_empty_of_length_eq_zero hl)
    rw [callHandleResponse, if_neg hlen, if_neg hstatus, htok]
    dsimp only
    rw [hdec]
    dsimp only
    rw [hfault]
  · have hinv : BodyInv b1 :=
      bodyLoop_inv dec (ts.length + 1) ⟨none, some response⟩ false ts b1 rest
        (Or.inl ⟨rfl, by simp⟩) hdec
    rcases hinv with ⟨h1, _⟩ | ⟨g, hg, h0, _⟩
    · rw [h1] at hfault
      exact absurd hfault (by simp)
    · rw [hg] at hfault
      obtain rfl : g = f := by
        simpa using hfault
      exact h0

theorem claim_C5_witness :
    callHandleResponse
        (fun _ => .ok [Token.startElement faultName, Token.endElement faultName,
          Token.endElement ⟨envelopeNS, "Body"⟩])
        contentDec (XTree.text "") "500 Internal Server Error" 500 "<xml>" =
      .error (.fault { decodeFault [] with httpStatus := 500 }) ∧
    (decodeFault []).httpStatus = 0 :=
  claim_C5
    (fun _ => .ok [Token.startElement faultName, Token.endElement faultName,
      Token.endElement ⟨envelopeNS, "Body"⟩])
    contentDec (XTree.text "") "500 Internal Server Error" 500 "<xml>"
    [Token.startElement faultName, Token.endElement faultName,
      Token.endElement ⟨envelopeNS, "Body"⟩]
    ⟨some (decodeFault []), none⟩ [] (decodeFault [])
    (by decide) (by decide) rfl (by decide) rfl

/-- C6: The fault formatter is a pure function over an optional Fault: an
absent fault yields exactly `soap: <nil>`; otherwise the prefix `soap: `,
then `<code>: ` only when the code is non-empty, then the text, then
` (<detail>)` only when the detail is non-empty, then ` <httpStatus>` only
when the status is non-zero; in particular (code, text, 500) formats to
`soap: code: text 500` and (text, detail) to `soap: text (detail)`. -/
theorem claim_C6 :
    faultErrorString none = "soap: <nil>" ∧
    (∀ f : Fault,
      faultErrorString (some f) =
        "soap: " ++ (if f.code ≠ "" then f.code ++ ": " else "") ++ f.text ++
          (if f.detail ≠ "" then " (" ++ f.detail ++ ")" else "") ++
          (if f.httpStatus ≠ 0 then " " ++ toString f.httpStatus else "")) ∧
    faultErrorString (some ⟨"code", "text", "", "", 500⟩) = "soap: code: text 500" ∧
    faultErrorString (some ⟨"", "text", "", "detail", 0⟩) = "soap: text (detail)" := by
  refine ⟨rfl, ?_, by decide, by decide⟩
  intro f
  rw [faultErrorString]
  split_ifs <;>
    simp only [String.append_assoc, String.append_empty, String.empty_append]

/-- C7: Each string field of a decoded Fault equals the character content
of the last matching child element with surrounding whitespace removed
(or the empty string when no child matches); concretely, a fault whose
`faultstring` holds `      fault text` in a status-500 response comes back
as the fault error and formats to exactly `soap: fault text 500`. -/
theorem claim_C7 :
    (∀ kids : List XTree,
      (decodeFault kids).code =
        (match lastFieldText "faultcode" kids with
          | some s => trimSpaceStr s
          | none => "") ∧
      (decodeFault kids).text =
        (match lastFieldText "faultstring" kids with
          | some s => trimSpaceStr s
          | none => "") ∧
      (decodeFault kids).actor =
        (match lastFieldText "faultactor" kids with
          | some s => trimSpaceStr s
          | none => "") ∧
      (decodeFault kids).detail =
        (match lastFieldText "detail" kids with
          | some s => trimSpaceStr s
          | none => "")) ∧
    (callHandleResponse
        (fun _ => .ok [Token.startElement faultName,
          Token.startElement ⟨"", "faultstring"⟩, Token.charData "      fault text",
          Token.endElement ⟨"", "faultstring"⟩, Token.endElement faultName,
          Token.endElement ⟨envelopeNS, "Body"⟩])
        contentDec (XTree.text "") "500 Internal Server Error" 500 "<xml>" =
      .error (.fault ⟨"", "fault text", "", "", 500⟩) ∧
    faultErrorString (some ⟨"", "fault text", "", "", 500⟩) = "soap: fault text 500") := by
  refine ⟨?_, by decide, by decide⟩
  intro kids
  refine ⟨?_, ?_, ?_, ?_⟩
  · rw [decodeFault, foldl_applyFaultChild_code]
    rfl
  · rw [decodeFault, foldl_applyFaultChild_text]
    rfl
  · rw [decodeFault, foldl_applyFaultChild_actor]
    rfl
  · rw [decodeFault, foldl_applyFaultChild_detail]
    rfl

/-- C8: A successful call whose response envelope contains an empty Body
(no child elements — only ignorable tokens before the closing end element)
returns no error and leaves the caller's response destination untouched. -/
theorem claim_C8 {α : Type} (tokenize : String → Except XmlError (List Token))
    (dec : α → XTree → Except XmlError α) (response : α)
    (statusText : String) (statusCode : Int) (rawBody : String)
    (pre : List Token) (w : XName) (rest : List Token)
    (hbody : rawBody ≠ "") (hstatus : statusCode ≠ 401)
    (htok : tokenize rawBody = .ok (pre ++ Token.endElement w :: rest))
    (hpre : ∀ tk ∈ pre, tk.isElemTok = false) :
    callHandleResponse tokenize dec response statusText statusCode rawBody =
      .ok (some response) := by
  have hlen : ¬rawBody.length = 0 := fun hl => hbody (string_eq_empty_of_length_eq_zero hl)
  rw [callHandleResponse, if_neg hlen, if_neg hstatus, htok]
  dsimp only
  have hun : Body.unmarshalXML dec ⟨none, some response⟩
      (pre ++ Token.endElement w :: rest) = .ok (⟨none, some response⟩, rest) :=
    bodyLoop_skipAll dec pre ⟨none, some response⟩ false w rest
      ((pre ++ Token.endElement w :: rest).length + 1) hpre
      (by simp only [List.length_append, List.length_cons]; omega)
  rw [hun]

theorem claim_C8_witness :
    callHandleResponse
        (fun _ => .ok [Token.charData "\n  ", Token.endElement ⟨envelopeNS, "Body"⟩])
        contentDec (XTree.elem ⟨"test:call", "Response"⟩ []) "200 OK" 200 "<xml>" =
      .ok (some (XTree.elem ⟨"test:call", "Response"⟩ [])) :=
  claim_C8 (fun _ => .ok [Token.charData "\n  ", Token.endElement ⟨envelopeNS, "Body"⟩])
    contentDec (XTree.elem ⟨"test:call", "Response"⟩ []) "200 OK" 200 "<xml>"
    [Token.charData "\n  "] ⟨envelopeNS, "Body"⟩ []
    (by decide) (by decide) rfl (by decide)

/-- C9: Encoding a request value (an element subtree) as Body content and
decoding the produced token stream back through the Body decoder with a
destination of the matching type yields the original value, provided the
element's name is not the reserved Fault name (the namespace-ambiguity
proviso). -/
theorem claim_C9 (n : XName) (kids : List XTree) (v : XTree) (w : XName)
    (hn : ¬(n.space = envelopeNS ∧ n.localName = "Fault")) :
    Body.unmarshalXML contentDec ⟨none, some v⟩
        (tokensOf (XTree.elem n kids) ++ [Token.endElement w]) =
      .ok (⟨none, some (XTree.elem n kids)⟩, []) := by
  have hsh : tokensOf (XTree.elem n kids) ++ [Token.endElement w] =
      Token.startElement n ::
        (tokensOfList kids ++ Token.endElement n :: Token.endElement w :: []) := by
    simp [tokensOf]
  rw [hsh]
  exact bodyLoop_single_content contentDec none v (XTree.elem n kids) n kids w [] _ hn rfl
    (by simp only [List.length_cons, List.length_append, List.length_nil]; omega)

theorem claim_C9_witness :
    Body.unmarshalXML contentDec ⟨none, some (XTree.text "")⟩
        (tokensOf (XTree.elem ⟨"test:call", "Request"⟩
          [XTree.elem ⟨"", "attr1"⟩ [XTree.text "value1"],
            XTree.elem ⟨"", "attr2"⟩ [XTree.text "value2"]]) ++
          [Token.endElement ⟨envelopeNS, "Body"⟩]) =
      .ok (⟨none, some (XTree.elem ⟨"test:call", "Request"⟩
        [XTree.elem ⟨"", "attr1"⟩ [XTree.text "value1"],
          XTree.elem ⟨"", "attr2"⟩ [XTree.text "value2"]])⟩, []) :=
  claim_C9 ⟨"test:call", "Request"⟩
    [XTree.elem ⟨"", "attr1"⟩ [XTree.text "value1"],
      XTree.elem ⟨"", "attr2"⟩ [XTree.text "value2"]]
    (XTree.text "") ⟨envelopeNS, "Body"⟩ (by decide)

/-- C10: The Body decoder ignores every top-level token that is not a
start or end element — character data (whitespace-only or not), comments,
processing instructions, directives — without error and without changing
the decoder's state, at every top-level position: in any state of the loop
(any fault/content fields and either value of `consumed`, so before as
well as after the single child has been consumed) such a token is dropped
and the loop continues unchanged on the rest of the stream; consequently a
whole decode with such a token in front equals the decode without it. -/
theorem claim_C10 {α : Type} (dec : α → XTree → Except XmlError α) (b : Body α)
    (consumed : Bool) (tk : Token) (ts : List Token) (fuel : Nat)
    (h : tk.isElemTok = false) :
    bodyLoop dec (fuel + 1) b consumed (tk :: ts) = bodyLoop dec fuel b consumed ts ∧
    Body.unmarshalXML dec b (tk :: ts) = Body.unmarshalXML dec b ts := by
  constructor
  · exact bodyLoop_skip dec fuel b consumed tk ts h
  · rw [Body.unmarshalXML, Body.unmarshalXML]
    match b with
    | ⟨fb, none⟩ => rfl
    | ⟨fb, some c⟩ =>
      dsimp only
      rw [List.length_cons]
      exact bodyLoop_skip dec (ts.length + 1) ⟨fb, some c⟩ false tk ts h

theorem claim_C10_witness :
    (bodyLoop contentDec 2 ⟨none, some (XTree.text "consumed child")⟩ true
        (Token.comment "between child and Body end" ::
          [Token.endElement ⟨envelopeNS, "Body"⟩]) =
      bodyLoop contentDec 1 ⟨none, some (XTree.text "consumed child")⟩ true
        [Token.endElement ⟨envelopeNS, "Body"⟩]) ∧
    Body.unmarshalXML contentDec ⟨none, some (XTree.text "consumed child")⟩
        (Token.comment "between child and Body end" ::
          [Token.endElement ⟨envelopeNS, "Body"⟩]) =
      Body.unmarshalXML contentDec ⟨none, some (XTree.text "consumed child")⟩
        [Token.endElement ⟨envelopeNS, "Body"⟩] :=
  claim_C10 contentDec ⟨none, some (XTree.text "consumed child")⟩ true
    (Token.comment "between child and Body end")
    [Token.endElement ⟨envelopeNS, "Body"⟩] 1 (by decide)

end Soap
